import Mathlib

/-!
Verification of the QDDPM quantum diffusion model (QDDPM_tf.py).

States of an m-qubit register are embedded as complex amplitude functions on
bit assignments `Fin m → Bool`.  Qubit 0 is the most significant bit of the
flat state-vector index (tensorcircuit / tensorflow big-endian convention:
the amplitude at flat index `Σ b_j 2^(m-1-j)` is the value at the assignment
`j ↦ b_j`).  Randomness (tensorflow's seeded uniform stream, numpy's seeded
Haar sampler, the per-sample measurement draws) is passed in explicitly: a
seeded generator is a deterministic function of its seed, so a caller-visible
seed becomes a function argument and the sampled measurement outcomes become
explicit lists, exactly as the spec's "given the same per-sample outcome
draws" phrases it.
-/

open ComplexConjugate

/-- Amplitude vector of an `m`-qubit register, indexed by bit assignments. -/
abbrev St (m : ℕ) : Type := (Fin m → Bool) → ℂ

/-- Squared L2 norm of a state: sum of squared amplitude magnitudes. -/
def norm2 {m : ℕ} (ψ : St m) : ℝ := ∑ x : Fin m → Bool, Complex.normSq (ψ x)

/-- Apply a single-qubit gate with matrix `U` (rows/columns indexed by the
bit value) to qubit `q` of the register. -/
def applySingle {m : ℕ} (U : Bool → Bool → ℂ) (q : Fin m) (ψ : St m) : St m :=
  fun x => U (x q) false * ψ (Function.update x q false) +
    U (x q) true * ψ (Function.update x q true)

/-- Controlled-Z on qubits `i`, `j`: phase flip when both bits are 1
(tensorcircuit `c.cz(i, j)`). -/
def applyCZ {m : ℕ} (i j : Fin m) (ψ : St m) : St m :=
  fun x => if x i && x j then -ψ x else ψ x

/-- Matrix of `rx(θ) = exp(-i θ/2 X)` (tensorcircuit `c.rx(q, theta)`). -/
noncomputable def rxMat (θ : ℝ) : Bool → Bool → ℂ :=
  fun r c => if r = c then (Real.cos (θ / 2) : ℂ)
    else -Complex.I * (Real.sin (θ / 2) : ℂ)

/-- Matrix of `ry(θ) = exp(-i θ/2 Y)` (tensorcircuit `c.ry(q, theta)`). -/
noncomputable def ryMat (θ : ℝ) : Bool → Bool → ℂ :=
  fun r c => if r = c then (Real.cos (θ / 2) : ℂ)
    else if r then (Real.sin (θ / 2) : ℂ) else -(Real.sin (θ / 2) : ℂ)

/-- Splitting a register assignment into the bit at `q` and the rest. -/
def qubitSplit {m : ℕ} (q : Fin m) :
    (Fin m → Bool) ≃ Bool × ({ j : Fin m // j ≠ q } → Bool) where
  toFun x := (x q, fun j => x j.val)
  invFun p := fun j => if h : j = q then p.1 else p.2 ⟨j, h⟩
  left_inv x := by
    funext j
    by_cases h : j = q
    · subst h; simp
    · simp [h]
  right_inv p := by
    refine Prod.ext (by simp) ?_
    funext j
    simp [j.prop]

/-!
### The backward denoise circuit (`backCircuit` in QDDPM_tf.py)

The source function is
```
def backCircuit(input, n_tot, L):
    c = tc.Circuit(n_tot, inputs=input)
    for _ in range(L):
        for i in range(n_tot):
            c.rx(i, theta=0.3)
            c.ry(i, theta=0.1)
        for i in range(n_tot // 2):
            c.cz(2 * i, 2 * i + 1)
        for i in range((n_tot-1) // 2):
            c.cz(2 * i + 1, 2 * i + 2)
    return c.state()
```
Note that, although its docstring lists `params: the parameters of the
circuit` and both wrappers (`QDDPM.qclayer` with
`weights_shape=[2*n_tot*L]` and `QDDPM_cpu.backCircuit_vmap`, which is
called as `backCircuit_vmap(inputs, params)`) supply a trained parameter
vector, the function has no parameter argument and its body contains only
the fixed-angle gates above.
-/

/-- One pass of the single-qubit loop: `rx(i, 0.3)` then `ry(i, 0.1)` on
every qubit `i` in order. -/
noncomputable def rotLayer (m : ℕ) (ψ : St m) : St m :=
  (List.finRange m).foldl
    (fun φ i => applySingle (ryMat 0.1) i (applySingle (rxMat 0.3) i φ)) ψ

/-- CZ brick on pairs `(2i, 2i+1)` for `i < m / 2`. -/
noncomputable def czLayerA (m : ℕ) (ψ : St m) : St m :=
  (List.finRange (m / 2)).foldl
    (fun φ i => applyCZ ⟨2 * i.val, by have := i.isLt; omega⟩
      ⟨2 * i.val + 1, by have := i.isLt; omega⟩ φ) ψ

/-- CZ brick on pairs `(2i+1, 2i+2)` for `i < (m-1) / 2`. -/
noncomputable def czLayerB (m : ℕ) (ψ : St m) : St m :=
  (List.finRange ((m - 1) / 2)).foldl
    (fun φ i => applyCZ ⟨2 * i.val + 1, by have := i.isLt; omega⟩
      ⟨2 * i.val + 2, by have := i.isLt; omega⟩ φ) ψ

/-- One layer of `backCircuit`. -/
noncomputable def backLayer (m : ℕ) (ψ : St m) : St m :=
  czLayerB m (czLayerA m (rotLayer m ψ))

/-- The full backward denoise circuit: `L` layers applied to the input
state of `n_tot` qubits.  Faithful to the source, it takes no trained
parameters. -/
noncomputable def backCircuitState (m L : ℕ) (ψ : St m) : St m :=
  (backLayer m)^[L] ψ

/-- The `QDDPM.qclayer` / `QDDPM_cpu.backCircuit_vmap` wrappers hand the
trained weight vector (shape `[2*n_tot*L]`) to `backCircuit`, which has no
parameter slot; the weights never reach a gate. -/
noncomputable def qclayerApply (m L : ℕ) (weights : List ℝ) (ψ : St m) : St m :=
  backCircuitState m L ψ

/-!
### Measurement collapse

`QDDPM_cpu.randomMeasure` reshapes each sample to `[2^na, 2^n]`, draws an
ancilla outcome `k` per sample from the row-probability distribution,
gathers the row `2^n * k + range(2^n)` and renormalizes it
(`tf.linalg.normalize`, i.e. division by the L2 norm of the row).  In the
bit-assignment representation, flat row `k` of the reshape is the set of
assignments whose first `na` bits spell `k` in binary (big-endian).  The
outcome draws (`tfp.distributions.Categorical(...).sample` /
`torch.multinomial`) are passed in explicitly as a list `mres`.
-/

/-- Big-endian bits of the ancilla outcome `k` on `na` qubits. -/
def bitsOf (na k : ℕ) : Fin na → Bool := fun j => k.testBit (na - 1 - j.val)

/-- Concatenate an ancilla assignment with a data assignment (ancillas are
the first `na` qubits, i.e. the most significant flat-index bits). -/
def bitAppend {na n : ℕ} (a : Fin na → Bool) (b : Fin n → Bool) :
    Fin (na + n) → Bool :=
  fun i => if h : i.val < na then a ⟨i.val, h⟩
    else b ⟨i.val - na, by have := i.isLt; omega⟩

/-- Row `k` of the conceptual `[2^na, 2^n]` reshape of a full-register
state: the unnormalized post-measurement data-qubit state for ancilla
outcome `k` (`tf.gather` with indices `2^n * k + range(2^n)`). -/
def collapseAt {na n : ℕ} (ψ : St (na + n)) (k : ℕ) : St n :=
  fun y => ψ (bitAppend (bitsOf na k) y)

/-- Renormalization step shared by all measurement implementations:
division by the L2 norm of the extracted row (`tf.linalg.normalize` /
`1./norms * post_state` / `post_state*(1./normal_const)`).  The source has
no zero-norm check; division by a zero norm proceeds silently. -/
noncomputable def normalizeSt {n : ℕ} (φ : St n) : St n :=
  fun y => (1 / (Real.sqrt (norm2 φ) : ℂ)) * φ y

/-- Function `QDDPM_cpu.randomMeasure`: per-sample gather of the drawn outcome row,
then renormalization; sample `i` of the output comes from sample `i` of
the input (batch order preserved). -/
noncomputable def randomMeasure_cpu (na n : ℕ) (inputs : List (St (na + n)))
    (mres : List ℕ) : List (St n) :=
  List.zipWith (fun ψ k => normalizeSt (collapseAt ψ k)) inputs mres

/-- Function `QDDPM.randomMeasureParallel` (one ancilla qubit): the batch is
partitioned by outcome, `torch.vstack` concatenates the outcome-0 rows'
first halves (`inputs[m_res==0, :2^n]`, i.e. `collapseAt 0`) with the
outcome-1 rows' second halves (`inputs[m_res==1, 2^n:]`, i.e.
`collapseAt 1`), and every stacked row is renormalized. -/
noncomputable def randomMeasureParallel (n : ℕ) (inputs : List (St (1 + n)))
    (mres : List ℕ) : List (St n) :=
  (((List.zip inputs mres).filter (fun p => p.2 == 0)).map
      (fun p => collapseAt p.1 0) ++
    ((List.zip inputs mres).filter (fun p => p.2 == 1)).map
      (fun p => collapseAt p.1 1)).map normalizeSt

/-- Ancilla index `i` as an index into the full register. -/
def ancIdx {na n : ℕ} (i : Fin na) : Fin (na + n) :=
  ⟨i.val, by have := i.isLt; omega⟩

/-- Gate `c.post_select(i, keep=b)` of tensorcircuit: project qubit `i` onto the
bit value `b` without renormalizing. -/
def postSelect {m : ℕ} (i : Fin m) (b : Bool) (ψ : St m) : St m :=
  fun x => if x i = b then ψ x else 0

/-- Pauli-X on qubit `i` (`c.x(i)`, used to reset a measured ancilla). -/
def applyX {m : ℕ} (i : Fin m) (ψ : St m) : St m :=
  fun x => ψ (Function.update x i (!x i))

/-- The ancilla loop of `QDDPM.randomMeasure`: post-select each ancilla on
its measured bit `zs i`, then flip it back to `|0⟩` when the outcome was 1. -/
def seqCollapse {na n : ℕ} (ψ : St (na + n)) (zs : Fin na → Bool) : St (na + n) :=
  (List.finRange na).foldl
    (fun φ i => if zs i then applyX (ancIdx i) (postSelect (ancIdx i) (zs i) φ)
      else postSelect (ancIdx i) (zs i) φ) ψ

/-- Slice `c.state()[:2^n]`: the data-qubit block of the flat state (all ancilla
bits zero). -/
def dataPart {na n : ℕ} (φ : St (na + n)) : St n :=
  fun y => φ (bitAppend (fun _ => false) y)

/-- Function `QDDPM.randomMeasure` (sequential, one sample): post-select ancillas on
the measured bits, reset them, take the data block and renormalize by
`K.sqrt(K.real(post_state.conj() @ post_state))`. -/
noncomputable def seqMeasureSingle {na n : ℕ} (ψ : St (na + n))
    (zs : Fin na → Bool) : St n :=
  normalizeSt (dataPart (seqCollapse ψ zs))

/-!
### The backward pipeline (`QDDPM_cpu`)

`prepareInput_t` keeps a fixed-size full-register buffer whose ancilla
columns stay zero; each iteration would overwrite the data-qubit slice
(`self.input_tplus1[:, :2**self.n] = ...`) with the measured output of the
previous full register.  `backDataGeneration` runs the same transition but
stores every intermediate ensemble in `states[T], states[T-1], ...,
states[0]`.  Per-step measurement draws are supplied as `draws : ℕ → List ℕ`
(draws for the transition using `params_tot[tt]` are `draws tt`).

The transition itself, however, cannot run: `backwardOutput_t` calls
`self.backCircuit_vmap(inputs, params)`, where `backCircuit_vmap =
K.vmap(partial(backCircuit, n_tot=self.n_tot, L=L), vectorized_argnums=0)`.
The extra positional `params` lands on `backCircuit`'s second parameter
`n_tot`, which the partial already binds by keyword, so Python raises
`TypeError: got multiple values for argument n_tot` before any gate
executes.  The pipeline is therefore modelled in the `Except PyError`
monad: each transition propagates this error, and a loop that runs at
least one iteration returns it instead of an ensemble.
-/

/-- A Python runtime error surfaced by a call. -/
inductive PyError : Type
  | nameError : PyError
  | typeError : PyError

/-- Embed a data-qubit state into the full register with all ancilla
qubits in `|0⟩` (the "write into `[:, :2^n]` of a zero buffer" pattern:
flat indices below `2^n` carry the data state, the rest are 0). -/
def fullEmbed (na n : ℕ) (φ : St n) : St (na + n) :=
  fun x => if ∀ i : Fin na, x (ancIdx i) = false
    then φ (fun j => x ⟨na + j.val, by have := j.isLt; omega⟩) else 0

/-- The call `self.backCircuit_vmap(inputs, params)` of
`QDDPM_cpu.backwardOutput_t`: the weight tensor is passed positionally
into `partial(backCircuit, n_tot=..., L=...)`, colliding with the
keyword-bound `n_tot`, so the call raises `TypeError` before any gate of
the (parameterless, see `backCircuit`) circuit body `backCircuitState`
executes. -/
def backCircuit_vmap_call (m L : ℕ) (inputs : List (St m)) (params : List ℝ) :
    Except PyError (List (St m)) :=
  Except.error PyError.typeError

/-- Function `QDDPM_cpu.backwardOutput_t`: the vmapped circuit call — which
raises `TypeError`, see `backCircuit_vmap_call` — then the measurement of
the circuit outputs.  (`randomMeasure` additionally returns the whole
`(states, norms)` pair of `tf.linalg.normalize`; the normalized states are
the component the pipeline is written to consume.) -/
noncomputable def backwardOutput_cpu (na n L : ℕ) (inputs : List (St (na + n)))
    (params : List ℝ) (draws : List ℕ) : Except PyError (List (St n)) :=
  (backCircuit_vmap_call (na + n) L inputs params).map
    (fun outs => randomMeasure_cpu na n outs draws)

/-- The step indices visited by `for tt in range(self.T-1, t, -1)`:
`T-1, T-2, ..., t+1`. -/
def ttList (T t : ℕ) : List ℕ := (List.range (T - 1 - t)).map (fun k => T - 1 - k)

/-- Function `QDDPM_cpu.prepareInput_t`: starting from `inputs_T` written into the
data slice of a zero buffer, run the transition for `tt = T-1, ..., t+1`,
reading the parameter row `params tt` and the outcome draws `draws tt`;
every transition propagates the `TypeError` its circuit call raises. -/
noncomputable def prepareInput_cpu (na n L : ℕ) (inputs_T : List (St n))
    (params : ℕ → List ℝ) (draws : ℕ → List ℕ) (t T : ℕ) :
    Except PyError (List (St (na + n))) :=
  List.foldlM
    (fun full tt => (backwardOutput_cpu na n L full (params tt) (draws tt)).map
      (fun out => out.map (fullEmbed na n)))
    (inputs_T.map (fullEmbed na n))
    (ttList T t)

/-- Function `QDDPM_cpu.backDataGeneration`: a `(T+1) × Ndata` array of
full-register states, zero-initialized, with `states[T]` set to the
embedded `inputs_T`; the loop `for tt in range(T-1, -1, -1)` would fill
`states[tt]` from `states[tt+1]`, each transition propagating its
`TypeError`. -/
noncomputable def backDataGeneration (na n L : ℕ) (inputs_T : List (St n))
    (params : ℕ → List ℝ) (draws : ℕ → List ℕ) (T Ndata : ℕ) :
    Except PyError (ℕ → List (St (na + n))) :=
  List.foldlM
    (fun states tt =>
      (backwardOutput_cpu na n L (states (tt + 1)) (params tt) (draws tt)).map
        (fun out => Function.update states tt (out.map (fullEmbed na n))))
    (Function.update
      (fun _ => List.replicate Ndata ((fun _ => 0) : St (na + n)))
      T (inputs_T.map (fullEmbed na n)))
    ((List.range T).map (fun k => T - 1 - k))

/-!
### Forward diffusion (`OneQubitDiffusionModel` / `MultiQubitDiffusionModel`)

`set_diffusionData_t` seeds tensorflow's global generator
(`tf.random.set_seed(seed)`) and then draws `tf.random.uniform((Ndata, 3*t))`.
For a fixed seed the generator produces a fixed flat stream of uniform
values, filled into the requested tensor in row-major order; the stream is
modelled as an explicit function `u : ℕ → ℝ` (one stream per seed), so the
element at row `i`, column `k` of the `(Ndata, 3*t)` draw is `u (3*t*i + k)`.
`diff_hs` has one entry per diffusion step; `tf.repeat(diff_hs, 3)` scales
column `k` by `diff_hs (k / 3)`.
-/

/-- Rotation-angle entry `(i, k)` produced by
`OneQubitDiffusionModel.set_diffusionData_t` at step count `t`:
`(uniform * pi/4 - pi/8) * repeat(diff_hs, 3)`. -/
noncomputable def phisOne (u : ℕ → ℝ) (dh : ℕ → ℝ) (t i k : ℕ) : ℝ :=
  (u (3 * t * i + k) * (Real.pi / 4) - Real.pi / 8) * dh (k / 3)

/-- Rotation-angle entry `(i, k)` produced by
`MultiQubitDiffusionModel.set_diffusionDataMulti_t` for `n` qubits: shape
`(Ndata, 3*n*t)`, scaled by `repeat(diff_hs, 3*n)`. -/
noncomputable def phisMulti (u : ℕ → ℝ) (dh : ℕ → ℝ) (n t i k : ℕ) : ℝ :=
  (u (3 * n * t * i + k) * (Real.pi / 4) - Real.pi / 8) * dh (k / (3 * n))

/-- Entangling-angle entry `(i, s)` produced by
`set_diffusionDataMulti_t`: `(uniform * 0.2 + 0.4) * diff_hs`, drawn from a
second seeded stream `v` of shape `(Ndata, t)`. -/
noncomputable def gsMulti (v : ℕ → ℝ) (dh : ℕ → ℝ) (t i s : ℕ) : ℝ :=
  (v (t * i + s) * 0.2 + 0.4) * dh s

/-!
### The scrambling circuit gate sequence (`MultiQubitDiffusionModel.scrambleCircuit_t`)

For claim C4 only the gate layout and angles matter, so the circuit is
embedded as the list of gates it applies.
-/

/-- A gate of the diffusion circuit, with its qubit indices and angle. -/
inductive DGate : Type
  | rz : ℕ → ℝ → DGate
  | ry : ℕ → ℝ → DGate
  | rzz : ℕ → ℕ → ℝ → DGate

/-- The angle carried by a diffusion-circuit gate. -/
def DGate.theta : DGate → ℝ
  | .rz _ θ => θ
  | .ry _ θ => θ
  | .rzz _ _ θ => θ

/-- The pairs of `itertools.combinations(range(n), 2)`: all ordered-by-index pairs
`(i, j)` with `i < j < n`, in lexicographic iteration order. -/
def pairList (n : ℕ) : List (ℕ × ℕ) :=
  (List.range n ×ˢ List.range n).filter (fun p => p.1 < p.2)

instance : Inhabited DGate := ⟨DGate.rz 0 0⟩

/-- The RZZ angle used in `scrambleCircuit_t`:
`theta = gs[s] / (2 * self.n ** 0.5)` (Python exponentiation binds tighter
than multiplication, so the divisor is `2 * sqrt n`). -/
noncomputable def rzzTheta (g : ℝ) (n : ℕ) : ℝ := g / (2 * Real.sqrt n)

/-- The entangling sub-layer of one diffusion step: an RZZ gate on every
pair from `combinations(range(n), 2)` with angle `gs[s] / (2 * n ** 0.5)`. -/
noncomputable def entangleLayer (n : ℕ) (g : ℝ) : List DGate :=
  (pairList n).map (fun p => DGate.rzz p.1 p.2 (rzzTheta g n))

/-- The single-qubit sub-layer of diffusion step `s`:
`rz(i, phis[3ns+i]); ry(i, phis[3ns+n+i]); rz(i, phis[3ns+2n+i])` for each
qubit `i`. -/
noncomputable def singleLayer (n s : ℕ) (phis : ℕ → ℝ) : List DGate :=
  (List.range n).flatMap (fun i =>
    [DGate.rz i (phis (3 * n * s + i)), DGate.ry i (phis (3 * n * s + n + i)),
      DGate.rz i (phis (3 * n * s + 2 * n + i))])

/-- The gate sequence of `scrambleCircuit_t` through diffusion step `t`. -/
noncomputable def scrambleGates (n t : ℕ) (phis : ℕ → ℝ) (gs : ℕ → ℝ) : List DGate :=
  (List.range t).flatMap (fun s => singleLayer n s phis ++ entangleLayer n (gs s))

/-!
### Ensemble distances (`naturalDistance`, `WassDistance`)

Both functions begin by evaluating `tfm.conj(Set1)`.  The module binds the
names imported at its top (`from functools import partial`,
`from itertools import combinations`, `import ot`, `import numpy as np`,
`import scipy as sp`, `from scipy.stats import unitary_group`,
`import tensorflow as tf`, `import tensorflow_probability as tfp`,
`from tensorflow.python.ops.numpy_ops import np_config`,
`import tensorcircuit as tc`, `import torch`, `import torch.nn as nn`,
`from torch.optim.lr_scheduler import StepLR`,
`from torch.linalg import matrix_power`,
`from opt_einsum import contract`) plus the module-level definitions
(`K`, the classes and the two distance functions); `tfm` is not among
them, so Python raises `NameError` on every call, before any arithmetic.
-/

/-- Names bound at module level in QDDPM_tf.py. -/
def moduleBoundNames : List String :=
  ["partial", "combinations", "ot", "np", "sp", "unitary_group", "tf", "tfp",
    "np_config", "tc", "torch", "nn", "StepLR", "matrix_power", "contract",
    "K", "OneQubitDiffusionModel", "MultiQubitDiffusionModel", "backCircuit",
    "QDDPM_cpu", "naturalDistance", "WassDistance", "QDDPM"]

/-- Entry of `contract('mi,ni->mn', conj(S1), S2)[m][n] = Σ_i conj(S1[m][i]) * S2[n][i]`. -/
noncomputable def innerC (a b : List ℂ) : ℂ :=
  (List.zipWith (fun x y => conj x * y) a b).sum

/-- Value `1. - tf.reduce_mean(tf.abs(contract('mi,ni->mn', conj(S1), S2))**2)`:
one minus the mean squared overlap between two ensembles. -/
noncomputable def oneMinusMeanOverlap (S1 S2 : List (List ℂ)) : ℝ :=
  1 - ((S1.map (fun a => ((S2.map (fun b => Complex.normSq (innerC a b))).sum))).sum) /
    (S1.length * S2.length)

/-- The value `2*r12 - r11 - r22` that `naturalDistance` is written to
compute (with `tfm.conj` interpreted as complex conjugation, as the
docstring describes). -/
noncomputable def naturalDistanceFormula (S1 S2 : List (List ℂ)) : ℝ :=
  2 * oneMinusMeanOverlap S1 S2 - oneMinusMeanOverlap S1 S1 -
    oneMinusMeanOverlap S2 S2

/-- Function `naturalDistance(Set1, Set2)`: resolving the free name `tfm` comes
first; if it resolved, the formula value would be returned. -/
noncomputable def naturalDistance (S1 S2 : List (List ℂ)) : Except PyError ℝ :=
  if moduleBoundNames.contains ("tfm") then Except.ok (naturalDistanceFormula S1 S2)
  else Except.error PyError.nameError

/-- The cost matrix of `WassDistance`:
`D = 1. - tf.abs(tfm.conj(Set1) @ tf.transpose(Set2))**2.`. -/
noncomputable def wassCostMatrix (S1 S2 : List (List ℂ)) : List (List ℝ) :=
  S1.map (fun a => S2.map (fun b => 1 - Complex.normSq (innerC a b)))

/-- Function `WassDistance(Set1, Set2)`: again `tfm` must resolve before the
optimal-transport solver `ot.emd2` (external, passed in as `emd`) runs. -/
noncomputable def WassDistance (emd : List (List ℝ) → ℝ) (S1 S2 : List (List ℂ)) :
    Except PyError ℝ :=
  if moduleBoundNames.contains ("tfm") then Except.ok (emd (wassCostMatrix S1 S2))
  else Except.error PyError.nameError

/-!
### Haar sampling with a hard-coded seed (`QDDPM`)

`QDDPM.randomSampleGeneration(Ndata)` executes `np.random.seed(22)` and then
`unitary_group.rvs(dim=2**self.n, size=Ndata)[:,:,0]`.  numpy's global
generator is deterministic given its seed state, so `unitary_group.rvs` is
modelled as an explicit function `rvs : ℕ → ℕ → ℕ → List (List (List ℂ))`
of (seed state, dim, size) returning `size` unitary matrices; the ambient
generator state `st` that the call *would* have used is discarded by the
reseeding.
-/

/-- Column 0 of each sampled unitary (`[:,:,0]`). -/
def firstColumns (us : List (List (List ℂ))) : List (List ℂ) :=
  us.map (fun u => u.map (fun row => row.headI))

/-- Function `QDDPM.randomSampleGeneration`: reseed numpy with the constant 22,
ignoring the incoming generator state `st`, then take the first column of
each Haar unitary. -/
def randomSampleGeneration (rvs : ℕ → ℕ → ℕ → List (List (List ℂ)))
    (st : ℕ) (n Ndata : ℕ) : List (List ℂ) :=
  firstColumns (rvs 22 (2 ^ n) Ndata)

/-- Big-endian flat index of a data-qubit bit assignment. -/
def bitsIndex {n : ℕ} (y : Fin n → Bool) : ℕ :=
  (List.finRange n).foldl (fun acc j => 2 * acc + (if y j then 1 else 0)) 0

/-- A length-`2^n` amplitude list as a data-qubit state. -/
def listToSt (n : ℕ) (v : List ℂ) : St n := fun y => v.getD (bitsIndex y) 0

/-- The full register `QDDPM.prepareInput_t` starts its backward loop from:
the fixed seed-22 Haar ensemble written into the data slice of a zero
buffer.  The signature of `prepareInput_t(params_tot, t, Ndata)` carries no
seed. -/
def qddpmInitialRegister (rvs : ℕ → ℕ → ℕ → List (List (List ℂ)))
    (st : ℕ) (na n Ndata : ℕ) : List (St (na + n)) :=
  (randomSampleGeneration rvs st n Ndata).map (fun v => fullEmbed na n (listToSt n v))

/-- The call `self.qclayer(inputs)` of `QDDPM.backwardOutput_t`:
`tc.TorchLayer` forwards its stored weight vector positionally into
`partial(backCircuit, n_tot=..., L=...)`, colliding with the keyword-bound
`n_tot` exactly as in `backCircuit_vmap_call` — `TypeError` before any
gate of the parameterless circuit body executes. -/
def qclayerCall (m L : ℕ) (inputs : List (St m)) : Except PyError (List (St m)) :=
  Except.error PyError.typeError

/-- Function `QDDPM.backwardOutput_t` with `mseq=False` (the branch `prepareInput_t`
uses): the `qclayer` call — which raises `TypeError`, see `qclayerCall` —
then the parallel measurement of the circuit outputs.  The `params` row
was written into `qclayer.q_weights` beforehand; the crash precedes any
use of it. -/
noncomputable def qddpmBackwardOutput (n L : ℕ) (inputs : List (St (1 + n)))
    (params : List ℝ) (draws : List ℕ) : Except PyError (List (St n)) :=
  (qclayerCall (1 + n) L inputs).map
    (fun outs => randomMeasureParallel n outs draws)

/-- Function `QDDPM.prepareInput_t` (one ancilla qubit, as `randomMeasureParallel`
requires): the same loop as the cpu variant, but starting from the seed-22
ensemble; every transition propagates its `TypeError`. -/
noncomputable def qddpmPrepareInput (rvs : ℕ → ℕ → ℕ → List (List (List ℂ)))
    (st : ℕ) (n L : ℕ) (params : ℕ → List ℝ) (draws : ℕ → List ℕ)
    (t T Ndata : ℕ) : Except PyError (List (St (1 + n))) :=
  List.foldlM
    (fun full tt => (qddpmBackwardOutput n L full (params tt) (draws tt)).map
      (fun out => out.map (fullEmbed 1 n)))
    (qddpmInitialRegister rvs st 1 n Ndata)
    (ttList T t)

/-- Basis state `|10⟩` on (ancilla, data): ancilla measured 1, data 0. -/
def psiA : St (1 + 1) := fun x => if x 0 = true ∧ x 1 = false then 1 else 0

/-- Basis state `|01⟩` on (ancilla, data): ancilla measured 0, data 1. -/
def psiB : St (1 + 1) := fun x => if x 0 = false ∧ x 1 = true then 1 else 0

/-- Basis state `|00⟩` on (ancilla, data): the ancilla-1 row is identically zero. -/
def psi00 : St (1 + 1) := fun x => if x 0 = false ∧ x 1 = false then 1 else 0

/-- Data-qubit basis state `|0⟩`. -/
def d0 : St 1 := fun y => if y 0 = false then 1 else 0

lemma norm2_nonneg {m : ℕ} (ψ : St m) : 0 ≤ norm2 ψ :=
  Finset.sum_nonneg fun x _ => Complex.normSq_nonneg (ψ x)

lemma qubitSplit_symm_q {m : ℕ} (q : Fin m) (b : Bool)
    (r : { j : Fin m // j ≠ q } → Bool) :
    (qubitSplit q).symm (b, r) q = b := by
  simp [qubitSplit]

lemma update_qubitSplit_symm {m : ℕ} (q : Fin m) (b c : Bool)
    (r : { j : Fin m // j ≠ q } → Bool) :
    Function.update ((qubitSplit q).symm (b, r)) q c = (qubitSplit q).symm (c, r) := by
  funext j
  by_cases h : j = q
  · subst h; simp [qubitSplit]
  · simp [Function.update, h, qubitSplit]

/-- A 2×2 matrix with orthonormal columns sends the squared norm of a pair of
amplitudes to itself. -/
lemma pair_norm (U : Bool → Bool → ℂ)
    (h00 : U false false * conj (U false false) + U true false * conj (U true false) = 1)
    (h11 : U false true * conj (U false true) + U true true * conj (U true true) = 1)
    (h01 : U false false * conj (U false true) + U true false * conj (U true true) = 0)
    (h10 : U false true * conj (U false false) + U true true * conj (U true false) = 0)
    (v0 v1 : ℂ) :
    Complex.normSq (U false false * v0 + U false true * v1) +
      Complex.normSq (U true false * v0 + U true true * v1) =
    Complex.normSq v0 + Complex.normSq v1 := by
  have key : (U false false * v0 + U false true * v1) *
        conj (U false false * v0 + U false true * v1) +
      (U true false * v0 + U true true * v1) *
        conj (U true false * v0 + U true true * v1) =
      v0 * conj v0 + v1 * conj v1 := by
    simp only [map_add, map_mul]
    linear_combination (v0 * conj v0) * h00 + (v1 * conj v1) * h11 +
      (v0 * conj v1) * h01 + (v1 * conj v0) * h10
  rw [Complex.mul_conj, Complex.mul_conj, Complex.mul_conj, Complex.mul_conj] at key
  exact_mod_cast key

/-- Applying a single-qubit gate with orthonormal columns preserves the
squared L2 norm of the state. -/
lemma norm2_applySingle {m : ℕ} (U : Bool → Bool → ℂ)
    (h00 : U false false * conj (U false false) + U true false * conj (U true false) = 1)
    (h11 : U false true * conj (U false true) + U true true * conj (U true true) = 1)
    (h01 : U false false * conj (U false true) + U true false * conj (U true true) = 0)
    (h10 : U false true * conj (U false false) + U true true * conj (U true false) = 0)
    (q : Fin m) (ψ : St m) :
    norm2 (applySingle U q ψ) = norm2 ψ := by
  have hsum : ∀ φ : St m, norm2 φ =
      ∑ p : Bool × ({ j : Fin m // j ≠ q } → Bool),
        Complex.normSq (φ ((qubitSplit q).symm p)) := by
    intro φ
    exact ((qubitSplit q).symm.sum_comp fun x => Complex.normSq (φ x)).symm
  rw [hsum (applySingle U q ψ), hsum ψ, Fintype.sum_prod_type, Fintype.sum_prod_type,
    Fintype.sum_bool, Fintype.sum_bool, ← Finset.sum_add_distrib, ← Finset.sum_add_distrib]
  apply Finset.sum_congr rfl
  intro r _
  have hval : ∀ b : Bool, applySingle U q ψ ((qubitSplit q).symm (b, r)) =
      U b false * ψ ((qubitSplit q).symm (false, r)) +
      U b true * ψ ((qubitSplit q).symm (true, r)) := by
    intro b
    simp only [applySingle, qubitSplit_symm_q, update_qubitSplit_symm]
  rw [hval true, hval false, add_comm (Complex.normSq (ψ ((qubitSplit q).symm (true, r))))]
  have := pair_norm U h00 h11 h01 h10
    (ψ ((qubitSplit q).symm (false, r))) (ψ ((qubitSplit q).symm (true, r)))
  linarith [this]

lemma norm2_applyCZ {m : ℕ} (i j : Fin m) (ψ : St m) :
    norm2 (applyCZ i j ψ) = norm2 ψ := by
  unfold norm2 applyCZ
  apply Finset.sum_congr rfl
  intro x _
  split <;> simp

lemma sin_sq_add_cos_sq_C (a : ℝ) :
    ((Real.sin a : ℂ)) ^ 2 + ((Real.cos a : ℂ)) ^ 2 = 1 := by
  exact_mod_cast congrArg (fun r : ℝ => (r : ℂ)) (Real.sin_sq_add_cos_sq a)

lemma rxMat_entries (θ : ℝ) :
    rxMat θ false false = (Real.cos (θ / 2) : ℂ) ∧
    rxMat θ true true = (Real.cos (θ / 2) : ℂ) ∧
    rxMat θ false true = -Complex.I * (Real.sin (θ / 2) : ℂ) ∧
    rxMat θ true false = -Complex.I * (Real.sin (θ / 2) : ℂ) := by
  refine ⟨?_, ?_, ?_, ?_⟩ <;> simp [rxMat]

lemma rxMat_cols (θ : ℝ) :
    (rxMat θ false false * conj (rxMat θ false false) +
      rxMat θ true false * conj (rxMat θ true false) = 1) ∧
    (rxMat θ false true * conj (rxMat θ false true) +
      rxMat θ true true * conj (rxMat θ true true) = 1) ∧
    (rxMat θ false false * conj (rxMat θ false true) +
      rxMat θ true false * conj (rxMat θ true true) = 0) ∧
    (rxMat θ false true * conj (rxMat θ false false) +
      rxMat θ true true * conj (rxMat θ true false) = 0) := by
  have hC := sin_sq_add_cos_sq_C (θ / 2)
  obtain ⟨e1, e2, e3, e4⟩ := rxMat_entries θ
  rw [e1, e2, e3, e4]
  simp only [map_mul, map_neg, Complex.conj_I, Complex.conj_ofReal]
  refine ⟨?_, ?_, by ring, by ring⟩ <;>
    linear_combination hC - (Real.sin (θ / 2) : ℂ) ^ 2 * Complex.I_sq

lemma ryMat_entries (θ : ℝ) :
    ryMat θ false false = (Real.cos (θ / 2) : ℂ) ∧
    ryMat θ true true = (Real.cos (θ / 2) : ℂ) ∧
    ryMat θ false true = -(Real.sin (θ / 2) : ℂ) ∧
    ryMat θ true false = (Real.sin (θ / 2) : ℂ) := by
  refine ⟨?_, ?_, ?_, ?_⟩ <;> simp [ryMat]

lemma ryMat_cols (θ : ℝ) :
    (ryMat θ false false * conj (ryMat θ false false) +
      ryMat θ true false * conj (ryMat θ true false) = 1) ∧
    (ryMat θ false true * conj (ryMat θ false true) +
      ryMat θ true true * conj (ryMat θ true true) = 1) ∧
    (ryMat θ false false * conj (ryMat θ false true) +
      ryMat θ true false * conj (ryMat θ true true) = 0) ∧
    (ryMat θ false true * conj (ryMat θ false false) +
      ryMat θ true true * conj (ryMat θ true false) = 0) := by
  have hC := sin_sq_add_cos_sq_C (θ / 2)
  obtain ⟨e1, e2, e3, e4⟩ := ryMat_entries θ
  rw [e1, e2, e3, e4]
  simp only [map_neg, Complex.conj_ofReal]
  exact ⟨by linear_combination hC, by linear_combination hC, by ring, by ring⟩

lemma norm2_foldl {m : ℕ} {α : Type} (f : St m → α → St m)
    (hf : ∀ φ a, norm2 (f φ a) = norm2 φ) (l : List α) (ψ : St m) :
    norm2 (l.foldl f ψ) = norm2 ψ := by
  induction l generalizing ψ with
  | nil => rfl
  | cons a l ih => rw [List.foldl_cons, ih, hf]

lemma norm2_rotLayer (m : ℕ) (ψ : St m) : norm2 (rotLayer m ψ) = norm2 ψ := by
  apply norm2_foldl
  intro φ i
  obtain ⟨x1, x2, x3, x4⟩ := rxMat_cols 0.3
  obtain ⟨y1, y2, y3, y4⟩ := ryMat_cols 0.1
  rw [norm2_applySingle _ y1 y2 y3 y4, norm2_applySingle _ x1 x2 x3 x4]

lemma norm2_czLayerA (m : ℕ) (ψ : St m) : norm2 (czLayerA m ψ) = norm2 ψ := by
  apply norm2_foldl
  intro φ i
  exact norm2_applyCZ _ _ _

lemma norm2_czLayerB (m : ℕ) (ψ : St m) : norm2 (czLayerB m ψ) = norm2 ψ := by
  apply norm2_foldl
  intro φ i
  exact norm2_applyCZ _ _ _

lemma norm2_backCircuitState (m L : ℕ) (ψ : St m) :
    norm2 (backCircuitState m L ψ) = norm2 ψ := by
  induction L with
  | zero => rfl
  | succ L ih =>
    rw [backCircuitState, Function.iterate_succ_apply', ← backCircuitState,
      backLayer, norm2_czLayerB, norm2_czLayerA, norm2_rotLayer, ih]

lemma norm2_smul {n : ℕ} (c : ℂ) (φ : St n) :
    norm2 (fun y => c * φ y) = Complex.normSq c * norm2 φ := by
  unfold norm2
  rw [Finset.mul_sum]
  exact Finset.sum_congr rfl fun y _ => Complex.normSq_mul c (φ y)

/-- After renormalization the squared L2 norm is exactly 1, provided the
extracted row was not the zero vector. -/
lemma norm2_normalizeSt {n : ℕ} (φ : St n) (h : norm2 φ ≠ 0) :
    norm2 (normalizeSt φ) = 1 := by
  have hpos : 0 < norm2 φ := lt_of_le_of_ne (norm2_nonneg φ) (Ne.symm h)
  unfold normalizeSt
  rw [norm2_smul]
  have h1 : Complex.normSq ((Real.sqrt (norm2 φ) : ℂ)) = norm2 φ := by
    rw [Complex.normSq_ofReal, Real.mul_self_sqrt (norm2_nonneg φ)]
  rw [one_div, Complex.normSq_inv, h1, inv_mul_cancel₀ h]

/-!
### Helper lemmas and concrete states used by the claim theorems
-/

lemma norm2_st1 (φ : St 1) :
    norm2 φ = Complex.normSq (φ (fun _ => false)) +
      Complex.normSq (φ (fun _ => true)) := by
  have h := (Equiv.funUnique (Fin 1) Bool).symm.sum_comp
    (fun x : Fin 1 → Bool => Complex.normSq (φ x))
  unfold norm2
  rw [← h, Fintype.sum_bool]
  exact add_comm _ _

lemma norm2_d0 : norm2 d0 = 1 := by
  rw [norm2_st1]
  norm_num [d0]

lemma collapseAt_psiA_vals :
    collapseAt psiA 1 (fun _ => false) = 1 ∧ collapseAt psiA 1 (fun _ => true) = 0 :=
  ⟨rfl, rfl⟩

lemma collapseAt_psiB_vals :
    collapseAt psiB 0 (fun _ => false) = 0 ∧ collapseAt psiB 0 (fun _ => true) = 1 :=
  ⟨rfl, rfl⟩

lemma norm2_collapseAt_psiA : norm2 (collapseAt psiA 1) = 1 := by
  rw [norm2_st1, collapseAt_psiA_vals.1, collapseAt_psiA_vals.2]
  norm_num

lemma norm2_collapseAt_psiB : norm2 (collapseAt psiB 0) = 1 := by
  rw [norm2_st1, collapseAt_psiB_vals.1, collapseAt_psiB_vals.2]
  norm_num

lemma zipWith_eq_map_zip {α β γ : Type} (f : α → β → γ) :
    ∀ (as : List α) (bs : List β),
      List.zipWith f as bs = (List.zip as bs).map (fun p => f p.1 p.2) := by
  intro as
  induction as with
  | nil => intro bs; simp
  | cons a as ih =>
    intro bs
    cases bs with
    | nil => simp
    | cons b bs => simp [ih bs]

lemma zip_zipWith_filter {α β γ : Type} [BEq β] (f : α → β → γ) (cv : β) :
    ∀ (as : List α) (bs : List β),
      ((List.zip (List.zipWith f as bs) bs).filter (fun p => p.2 == cv)).map Prod.fst =
      ((List.zip as bs).filter (fun p => p.2 == cv)).map (fun p => f p.1 p.2) := by
  intro as
  induction as with
  | nil => intro bs; simp
  | cons a as ih =>
    intro bs
    cases bs with
    | nil => simp
    | cons b bs =>
      by_cases hc : b == cv
      · simp [List.filter_cons, hc, ih bs]
      · simp [List.filter_cons, hc, ih bs]

lemma filter_beq_map_const {α : Type} {n : ℕ} (g : α → ℕ → St n) (c : ℕ)
    (l : List (α × ℕ)) :
    (l.filter (fun p => p.2 == c)).map (fun p => g p.1 p.2) =
    (l.filter (fun p => p.2 == c)).map (fun p => g p.1 c) := by
  apply List.map_congr_left
  intro p hp
  have h2 := (List.mem_filter.mp hp).2
  rw [show p.2 = c from by simpa using h2]

lemma foldlM_typeError {α : Type} (f : α → ℕ → Except PyError α)
    (hf : ∀ b tt, f b tt = Except.error PyError.typeError)
    (l : List ℕ) (b : α) (hl : l ≠ []) :
    List.foldlM f b l = Except.error PyError.typeError := by
  cases l with
  | nil => exact absurd rfl hl
  | cons a l =>
    rw [List.foldlM_cons, hf]
    rfl

/-!
## Claim theorems
-/

/-- C1: the claim asserts that each layer of `backCircuit` applies, after
the fixed-angle rx/ry bias gates and the CZ bricks, trained rotations
taken from the shared parameter vector of length `2*n_tot*L`, and that two
distinct parameter vectors can produce different output states.  In the
code the parameter vector never reaches a gate: `backCircuit` has no
parameter argument (despite its docstring listing `params`) and its body
contains only the fixed gates, so the wrapped layer produces the same
output for the length-2 parameter vectors `[0, 0]` and `[1, 1]` on the
state `|0⟩` with `n_tot = 1`, `L = 1`. -/
theorem c1_backCircuit_ignores_params :
    qclayerApply 1 1 [0, 0] d0 = qclayerApply 1 1 [1, 1] d0 := rfl

/-- C3 counterexample: with the two calls sharing one seeded uniform
stream (here the concrete stream `j ↦ j` with unit diffusion
hyperparameters), the first rotation angle of sample `i = 1` at step count
`t = 1` differs from the one at step count `t' = 2`, because the row-major
flat position of entry `(1, 0)` is `3` in the `(Ndata, 3)` draw but `6` in
the `(Ndata, 6)` draw. -/
theorem c3_counterexample :
    phisOne (fun j => (j : ℝ)) (fun _ => 1) 1 1 0 ≠
      phisOne (fun j => (j : ℝ)) (fun _ => 1) 2 1 0 := by
  unfold phisOne
  intro h
  norm_num at h
  exact Real.pi_ne_zero h

/-- C3 amended: both step counts draw from the same seeded stream in
row-major order, so the angles of sample `i = 0` — whose flat positions do
not depend on the row stride — coincide between the `t`-call and the
`t'`-call, for the single-qubit angles, the multi-qubit angles, and the
entangling angles alike; for samples `i ≥ 1` the angles generally differ
(see the counterexample). -/
theorem c3_sample0_agreement (u v dh : ℕ → ℝ) (n t t' k s : ℕ) :
    phisOne u dh t 0 k = phisOne u dh t' 0 k ∧
    phisMulti u dh n t 0 k = phisMulti u dh n t' 0 k ∧
    gsMulti v dh t 0 s = gsMulti v dh t' 0 s := by
  unfold phisOne phisMulti gsMulti
  norm_num

/-- C4 counterexample: the RZZ angle coded as `gs[s] / (2 * n ** 0.5)` is
`g / (2·√n)`, not the claimed `g / √(2·n)`: at `n = 2`, `g = 1` the code's
angle `1 / (2·√2)` differs from the claimed `1 / √4 = 1/2`. -/
theorem c4_counterexample :
    (entangleLayer 2 1).headI = DGate.rzz 0 1 (rzzTheta 1 2) ∧
    rzzTheta 1 2 ≠ 1 / Real.sqrt (2 * 2) := by
  refine ⟨rfl, ?_⟩
  have h4 : Real.sqrt (2 * 2) = 2 := by
    rw [show (2 * 2 : ℝ) = 2 ^ 2 by norm_num, Real.sqrt_sq (by norm_num : (0:ℝ) ≤ 2)]
  have s2 : Real.sqrt 2 ^ 2 = 2 := Real.sq_sqrt (by norm_num)
  have s2pos : 0 < Real.sqrt 2 := Real.sqrt_pos.mpr (by norm_num)
  unfold rzzTheta
  rw [h4]
  norm_num

/-- C4 amended: the entangling layer of `scrambleCircuit_t` applies an RZZ
gate exactly once for every unordered pair `i < j < n`, in the fixed
lexicographic order of `itertools.combinations(range(n), 2)`, and every
such gate carries the angle `gs[s] / (2·√n)` (the step angle scaled by
`1 / (2·√n)`, not `1 / √(2·n)`). -/
theorem c4_entangling_layer (n : ℕ) (g : ℝ) :
    (∀ i j : ℕ, (i, j) ∈ pairList n ↔ i < j ∧ j < n) ∧
    (pairList n).Nodup ∧
    (∀ d ∈ entangleLayer n g, DGate.theta d = g / (2 * Real.sqrt n)) := by
  refine ⟨?_, ?_, ?_⟩
  · intro i j
    simp only [pairList, List.mem_filter, List.mem_product, List.mem_range,
      decide_eq_true_eq]
    omega
  · exact ((List.nodup_range _).product (List.nodup_range _)).filter _
  · intro d hd
    obtain ⟨p, _, rfl⟩ := List.mem_map.mp hd
    rfl

/-- C4 witness: at `n = 2`, `g = 1` the single entangling gate is on the
pair `(0, 1)` and carries the angle `1 / (2·√2)`. -/
theorem c4_witness :
    ((0, 1) ∈ pairList 2) ∧ DGate.theta ((entangleLayer 2 1).headI) = 1 / (2 * Real.sqrt 2) := by
  have h := c4_entangling_layer 2 1
  refine ⟨(h.1 0 1).mpr (by omega), ?_⟩
  have hmem : (entangleLayer 2 1).headI ∈ entangleLayer 2 1 := by
    rw [show entangleLayer 2 1 = [DGate.rzz 0 1 (rzzTheta 1 2)] from rfl]
    exact List.mem_singleton_self _
  rw [h.2.2 _ hmem]
  norm_num

/-- C5: every call of `naturalDistance` and of `WassDistance` fails with a
name-resolution error: both bodies reference `tfm`, which is bound nowhere
in the module, so no pair of ensembles ever produces a value. -/
theorem c5_distance_name_error (emd : List (List ℝ) → ℝ) (S1 S2 : List (List ℂ)) :
    naturalDistance S1 S2 = Except.error PyError.nameError ∧
    WassDistance emd S1 S2 = Except.error PyError.nameError := by
  have h : moduleBoundNames.contains ("tfm") = false := by decide
  constructor
  · unfold naturalDistance
    rw [h]
    rfl
  · unfold WassDistance
    rw [h]
    rfl

/-- C9: the claim that `naturalDistance(Set, Set)` returns exactly 0.  The
code never returns: `tfm` is unresolved and every call raises `NameError`
(the slip contradicts the function's own docstring).  The distance formula
the function is written to compute does evaluate to exactly 0 on
`(Set, Set)`, since `r11`, `r22` and `r12` are then literally the same
quantity. -/
theorem c9_naturalDistance_self (S : List (List ℂ)) :
    naturalDistance S S = Except.error PyError.nameError ∧
    naturalDistanceFormula S S = 0 := by
  constructor
  · unfold naturalDistance
    rw [show moduleBoundNames.contains ("tfm") = false from by decide]
    rfl
  · unfold naturalDistanceFormula
    ring

/-- C10: `QDDPM.randomSampleGeneration` reseeds numpy with the constant 22
on every call, so its output is the same whatever generator state `st` was
ambient, and `QDDPM.prepareInput_t` (whose signature has no seed argument)
always starts the backward pass from that same fixed ensemble: both the
initial register and the whole prepared input are independent of the
ambient generator state. -/
theorem c10_hardcoded_seed (rvs : ℕ → ℕ → ℕ → List (List (List ℂ)))
    (st st' : ℕ) (n L : ℕ) (params : ℕ → List ℝ) (draws : ℕ → List ℕ)
    (t T Ndata : ℕ) :
    randomSampleGeneration rvs st n Ndata = randomSampleGeneration rvs st' n Ndata ∧
    qddpmInitialRegister rvs st 1 n Ndata = qddpmInitialRegister rvs st' 1 n Ndata ∧
    qddpmPrepareInput rvs st n L params draws t T Ndata =
      qddpmPrepareInput rvs st' n L params draws t T Ndata :=
  ⟨rfl, rfl, rfl⟩

/-- C2 counterexample: the claim asserts that sample `i` of the output of
each implementation is the renormalized collapsed state of sample `i` of
the input, in the same batch order.  For the batch `[psiA, psiB]`
(`n = na = 1`) with outcome draws `[1, 0]`, `randomMeasureParallel` places
the outcome-0 sample `psiB` first, so its sample 0 is not the renormalized
collapse of `psiA` at its drawn outcome 1. -/
theorem c2_counterexample :
    (randomMeasureParallel 1 [psiA, psiB] [1, 0]).headI ≠
      normalizeSt (collapseAt psiA 1) := by
  intro h
  have h0 : (randomMeasureParallel 1 [psiA, psiB] [1, 0]).headI =
      normalizeSt (collapseAt psiB 0) := rfl
  rw [h0] at h
  have hv := congrFun h (fun _ => false)
  unfold normalizeSt at hv
  rw [collapseAt_psiB_vals.1, collapseAt_psiA_vals.1, norm2_collapseAt_psiA] at hv
  simp [Real.sqrt_one] at hv

/-- C2 amended: given the same per-sample outcome draws,
`QDDPM_cpu.randomMeasure` returns the renormalized collapsed state of
sample `i` at position `i`, while `randomMeasureParallel` returns the same
renormalized states stably partitioned by outcome: all outcome-0 samples
(in their original relative order) followed by all outcome-1 samples.  The
two outputs are thus equal up to this outcome-sorting permutation, not
samplewise in batch order. -/
theorem c2_parallel_is_stable_partition (n : ℕ) (inputs : List (St (1 + n)))
    (mres : List ℕ) :
    randomMeasureParallel n inputs mres =
      ((List.zip (randomMeasure_cpu 1 n inputs mres) mres).filter
          (fun p => p.2 == 0)).map Prod.fst ++
      ((List.zip (randomMeasure_cpu 1 n inputs mres) mres).filter
          (fun p => p.2 == 1)).map Prod.fst := by
  unfold randomMeasureParallel randomMeasure_cpu
  rw [zip_zipWith_filter (fun ψ k => normalizeSt (collapseAt ψ k)) 0 inputs mres,
    zip_zipWith_filter (fun ψ k => normalizeSt (collapseAt ψ k)) 1 inputs mres,
    List.map_append, List.map_map, List.map_map]
  congr 1
  · apply List.map_congr_left
    intro p hp
    have h2 : p.2 = 0 := by simpa using (List.mem_filter.mp hp).2
    simp [Function.comp, h2]
  · apply List.map_congr_left
    intro p hp
    have h2 : p.2 = 1 := by simpa using (List.mem_filter.mp hp).2
    simp [Function.comp, h2]

/-- C6: unit norm is preserved: the denoise circuit `backCircuit` (built
from the unitary rx, ry, cz gates only) maps unit-norm states to unit-norm
states, and each of the three measurement implementations returns rows of
squared norm exactly 1 after its renormalization step, provided each
drawn outcome's extracted row is not the zero vector (a zero-probability
outcome). -/
theorem c6_unit_norm :
    (∀ (m L : ℕ) (ψ : St m), norm2 ψ = 1 → norm2 (backCircuitState m L ψ) = 1) ∧
    (∀ (na n : ℕ) (inputs : List (St (na + n))) (mres : List ℕ),
      (∀ p ∈ List.zip inputs mres, norm2 (collapseAt p.1 p.2) ≠ 0) →
      ∀ φ ∈ randomMeasure_cpu na n inputs mres, norm2 φ = 1) ∧
    (∀ (n : ℕ) (inputs : List (St (1 + n))) (mres : List ℕ),
      (∀ p ∈ List.zip inputs mres, norm2 (collapseAt p.1 p.2) ≠ 0) →
      ∀ φ ∈ randomMeasureParallel n inputs mres, norm2 φ = 1) ∧
    (∀ (na n : ℕ) (ψ : St (na + n)) (zs : Fin na → Bool),
      norm2 (dataPart (seqCollapse ψ zs)) ≠ 0 →
      norm2 (seqMeasureSingle ψ zs) = 1) := by
  refine ⟨?_, ?_, ?_, ?_⟩
  · intro m L ψ h
    rw [norm2_backCircuitState, h]
  · intro na n inputs mres H φ hφ
    unfold randomMeasure_cpu at hφ
    rw [zipWith_eq_map_zip] at hφ
    obtain ⟨p, hp, rfl⟩ := List.mem_map.mp hφ
    exact norm2_normalizeSt _ (H p hp)
  · intro n inputs mres H φ hφ
    unfold randomMeasureParallel at hφ
    obtain ⟨χ, hχ, rfl⟩ := List.mem_map.mp hφ
    rcases List.mem_append.mp hχ with hχ0 | hχ1
    · obtain ⟨p, hpf, rfl⟩ := List.mem_map.mp hχ0
      obtain ⟨hp, h2⟩ := List.mem_filter.mp hpf
      have h2' : p.2 = 0 := by simpa using h2
      apply norm2_normalizeSt
      have := H p hp
      rwa [h2'] at this
    · obtain ⟨p, hpf, rfl⟩ := List.mem_map.mp hχ1
      obtain ⟨hp, h2⟩ := List.mem_filter.mp hpf
      have h2' : p.2 = 1 := by simpa using h2
      apply norm2_normalizeSt
      have := H p hp
      rwa [h2'] at this
  · intro na n ψ zs h
    exact norm2_normalizeSt _ h

/-- C6 witness: concrete instances — the circuit output on the unit-norm
`|0⟩`, and each measurement implementation on a one-sample batch whose
drawn outcome row has norm 1. -/
theorem c6_witness :
    norm2 (backCircuitState 1 1 d0) = 1 ∧
    norm2 ((randomMeasure_cpu 1 1 [psiB] [0]).headI) = 1 ∧
    norm2 ((randomMeasureParallel 1 [psiB] [0]).headI) = 1 ∧
    norm2 (seqMeasureSingle psiB (fun _ => false)) = 1 := by
  have hB : norm2 (collapseAt psiB 0) ≠ 0 := by
    rw [norm2_collapseAt_psiB]; norm_num
  have hzip : ∀ p ∈ List.zip [psiB] [(0 : ℕ)], norm2 (collapseAt p.1 p.2) ≠ 0 := by
    intro p hp
    have hp' : p = (psiB, 0) := by simpa using hp
    rw [hp']
    exact hB
  have e1 : randomMeasure_cpu 1 1 [psiB] [0] = [normalizeSt (collapseAt psiB 0)] := rfl
  have e2 : randomMeasureParallel 1 [psiB] [0] = [normalizeSt (collapseAt psiB 0)] := rfl
  have hseq : norm2 (dataPart (seqCollapse psiB (fun _ => false))) = 1 := by
    rw [norm2_st1,
      show dataPart (seqCollapse psiB (fun _ => false)) (fun _ => false) = 0 from rfl,
      show dataPart (seqCollapse psiB (fun _ => false)) (fun _ => true) = 1 from rfl]
    norm_num
  refine ⟨c6_unit_norm.1 1 1 d0 norm2_d0, ?_, ?_, ?_⟩
  · rw [e1]
    apply c6_unit_norm.2.1 1 1 [psiB] [0] hzip
    rw [e1]
    exact List.mem_singleton_self _
  · rw [e2]
    apply c6_unit_norm.2.2.1 1 [psiB] [0] hzip
    rw [e2]
    exact List.mem_singleton_self _
  · exact c6_unit_norm.2.2.2 1 1 psiB (fun _ => false) (by rw [hseq]; norm_num)

/-- C7: when the extracted post-measurement row has exactly zero norm (here
the full state `|00⟩` collapsed at the zero-probability ancilla outcome 1),
the renormalization divides by the zero norm without raising or signalling
anything: the call returns a normally-shaped batch whose row is the
degenerate all-zero vector (squared norm 0, not 1).  In floating point the
same silent division produces NaN components; either way no condition
distinguishable from a normal result is surfaced, contrary to the claim. -/
theorem c7_silent_zero_norm_division :
    randomMeasure_cpu 1 1 [psi00] [1] = [fun _ => (0 : ℂ)] ∧
    norm2 ((randomMeasure_cpu 1 1 [psi00] [1]).headI) = 0 := by
  have hz : collapseAt psi00 1 = (fun _ => (0 : ℂ)) := by funext y; rfl
  have hnz : normalizeSt (fun _ => (0 : ℂ)) = (fun _ : Fin 1 → Bool => (0 : ℂ)) := by
    funext y
    simp [normalizeSt]
  have e : randomMeasure_cpu 1 1 [psi00] [1] = [normalizeSt (collapseAt psi00 1)] := rfl
  constructor
  · rw [e, hz, hnz]
  · rw [show (randomMeasure_cpu 1 1 [psi00] [1]).headI =
      normalizeSt (collapseAt psi00 1) from rfl, hz, hnz, norm2_st1]
    simp

/-- C8: the claim says `prepareInput_t` applies the denoise-then-measure
transition exactly for the parameter rows `params_tot[tt]`,
`tt = T-1, ..., t+1` — never for any `tt ≤ t` — and that its result equals
the step-`t+1` ensemble of the `backDataGeneration` trajectory.  The
visited index list is indeed exactly `{tt | t < tt < T}`, but the
result-equality clause fails against the program: the very first
transition's circuit call raises `TypeError` (the parameter-passing defect
recorded under C1), so whenever its loop is nonempty (`t + 1 < T`)
`prepareInput_t` crashes instead of producing an ensemble, and
`backDataGeneration` — whose loop always runs when `T ≥ 1` — never
produces a trajectory to compare with. -/
theorem c8_pipeline_crashes (na n L : ℕ) (inputs_T : List (St n))
    (params : ℕ → List ℝ) (draws : ℕ → List ℕ) (T t Ndata : ℕ) :
    (∀ tt : ℕ, tt ∈ ttList T t ↔ t < tt ∧ tt < T) ∧
    (t + 1 < T → prepareInput_cpu na n L inputs_T params draws t T =
      Except.error PyError.typeError) ∧
    (0 < T → backDataGeneration na n L inputs_T params draws T Ndata =
      Except.error PyError.typeError) := by
  refine ⟨?_, ?_, ?_⟩
  · intro tt
    unfold ttList
    simp only [List.mem_map, List.mem_range]
    constructor
    · rintro ⟨k, hk, rfl⟩
      omega
    · rintro ⟨h1, h2⟩
      exact ⟨T - 1 - tt, by omega, by omega⟩
  · intro hT
    unfold prepareInput_cpu
    apply foldlM_typeError _ (fun b tt => rfl)
    intro hnil
    have hlen := congrArg List.length hnil
    simp only [ttList, List.length_map, List.length_range, List.length_nil] at hlen
    omega
  · intro hT
    unfold backDataGeneration
    apply foldlM_typeError _ (fun b tt => rfl)
    intro hnil
    have hlen := congrArg List.length hnil
    simp only [List.length_map, List.length_range, List.length_nil] at hlen
    omega

/-- C8 witness: at `T = 2`, `t = 0` the visited index 1 satisfies
`0 < 1 < 2`, and both pipeline entry points crash with the `TypeError`
instead of producing ensembles. -/
theorem c8_witness :
    ((1 ∈ ttList 2 0) ↔ 0 < 1 ∧ 1 < 2) ∧
    prepareInput_cpu 1 1 1 [d0] (fun _ => [0, 0]) (fun _ => [0]) 0 2 =
      Except.error PyError.typeError ∧
    backDataGeneration 1 1 1 [d0] (fun _ => [0, 0]) (fun _ => [0]) 2 1 =
      Except.error PyError.typeError := by
  have h := c8_pipeline_crashes 1 1 1 [d0] (fun _ => [0, 0]) (fun _ => [0]) 2 0 1
  exact ⟨h.1 1, h.2.1 (by norm_num), h.2.2 (by norm_num)⟩
